import Mathlib

/-!
Verification of the OA-backend core pipelines against their specification.

The development shallowly embeds the two algorithmic source files:
* the ingestion script (`chunkText`, `sha256`-keyed dedup, `runPool`, `ingestOne`), and
* the RAG query router (`classifyIntent`, `ragRetrieval`'s fallback embedding and
  grouping, `generateExamAnswer`'s scoring and marking-point normalization).

JavaScript numbers are modelled as `Nat`/`Int`/`ℚ` (and `ℝ` for the one place a
square root occurs); strings are modelled as `String`/`List Char` with the JS
operations re-implemented structurally so that every definition evaluates inside
the kernel.
-/

namespace OA

/-! ## JS string primitives, modelled over `List Char` -/

/-- JS `String.prototype.trim` on a character list (drops leading and trailing
whitespace). -/
def trimChars (l : List Char) : List Char :=
  ((l.dropWhile Char.isWhitespace).reverse.dropWhile Char.isWhitespace).reverse

/-- The regex replace `[ \t]+\n -> \n` used by `chunkText`: spaces and tabs
immediately preceding a newline are dropped. -/
def collapseSpaceBeforeNl (l : List Char) : List Char :=
  l.foldr (fun c acc =>
    if (c = ' ' ∨ c = '\t') ∧ acc.head? = some '\n' then acc else c :: acc) []

/-- The regex replace `\n{3,} -> \n\n` used by `chunkText`: runs of three or more
newlines are collapsed to two. -/
def collapseBlankLines (l : List Char) : List Char :=
  l.foldr (fun c acc =>
    if c = '\n' ∧ acc.take 2 = ['\n', '\n'] then acc else c :: acc) []

/-- The `clean` preprocessing at the top of `chunkText`:
`text.replace(/\r/g,"").replace(/[ \t]+\n/g,"\n").replace(/\n{3,}/g,"\n\n").trim()`. -/
def cleanChars (l : List Char) : List Char :=
  trimChars (collapseBlankLines (collapseSpaceBeforeNl (l.filter (fun c => c ≠ '\r'))))

/-! ## chunkText -/

/-- The spans `[i, end)` visited by the `chunkText` loop, with explicit fuel since
the loop need not terminate for every configuration.  Mirrors:
`while (i < len) { end = min(len, i + cs); ...; if (end >= len) break; i = max(0, end - ov) }`
(`max 0` is truncated subtraction on `Nat`).  Returns `none` when the fuel runs out. -/
def chunkSpans (len cs ov : Nat) : Nat → Nat → Option (List (Nat × Nat))
  | 0, _ => none
  | fuel + 1, i =>
    if i < len then
      if len ≤ min len (i + cs) then some [(i, min len (i + cs))]
      else
        match chunkSpans len cs ov fuel (min len (i + cs) - ov) with
        | none => none
        | some rest => some ((i, min len (i + cs)) :: rest)
    else some []

/-- Unfolding equation for one iteration of the loop. -/
theorem chunkSpans_succ (len cs ov n i : Nat) :
    chunkSpans len cs ov (n + 1) i =
      if i < len then
        if len ≤ min len (i + cs) then some [(i, min len (i + cs))]
        else
          match chunkSpans len cs ov n (min len (i + cs) - ov) with
          | none => none
          | some rest => some ((i, min len (i + cs)) :: rest)
      else some [] := rfl

/-- The fragment cut from span `ab` of the cleaned text:
`clean.slice(i, end).trim()`. -/
def spanChunk (clean : List Char) (ab : Nat × Nat) : List Char :=
  trimChars ((clean.drop ab.1).take (ab.2 - ab.1))

/-- `chunkText` with explicit fuel: `some` chunks when the loop finishes within
`fuel` iterations.  A visited span contributes a fragment exactly when its trimmed
slice is longer than 80 characters. -/
def chunkTextFuel (text : String) (cs ov fuel : Nat) : Option (List String) :=
  (chunkSpans (cleanChars text.data).length cs ov fuel 0).map (fun spans =>
    spans.filterMap (fun ab =>
      if 80 < (spanChunk (cleanChars text.data) ab).length
      then some (String.mk (spanChunk (cleanChars text.data) ab)) else none))

/-- The `chunkText` loop terminates on the given configuration. -/
def ChunkTerminates (text : String) (cs ov : Nat) : Prop :=
  ∃ fuel, (chunkTextFuel text cs ov fuel).isSome

/-- `chunkText(text, chunkSize, overlap)`.  Fuel `length + 1` completes the loop
for every configuration with `overlap < chunkSize` (proved below); on a
non-terminating configuration this total model defaults to `[]`. -/
def chunkText (text : String) (cs ov : Nat) : List String :=
  (chunkTextFuel text cs ov ((cleanChars text.data).length + 1)).getD []

/-- On the repeated state `i = 0` produced by `chunkSize = 1`, `overlap = 1` on the
two-character clean text `ab`, the loop never finishes whatever the fuel. -/
theorem chunkSpans_ab_none : ∀ fuel, chunkSpans 2 1 1 fuel 0 = none := by
  intro fuel
  induction fuel with
  | zero => rfl
  | succ n ih => simp [chunkSpans, ih]

/-- Fuel `len - i + 1` completes the loop from position `i` whenever
`overlap < chunkSize`. -/
theorem chunkSpans_isSome_of_lt (len cs ov : Nat) (hov : ov < cs) :
    ∀ fuel i, len - i < fuel → (chunkSpans len cs ov fuel i).isSome := by
  intro fuel
  induction fuel with
  | zero => intro i h; omega
  | succ n ih =>
    intro i h
    by_cases hi : i < len
    · by_cases hend : len ≤ min len (i + cs)
      · simp [chunkSpans, hi, hend]
      · have hlt : i + cs < len := by
          rcases le_total len (i + cs) with h1 | h1
          · exact absurd (le_of_eq (min_eq_left h1).symm) hend
          · have := min_eq_right h1
            omega
        have hmin : min len (i + cs) = i + cs := min_eq_right (le_of_lt hlt)
        have hrec : (chunkSpans len cs ov n (min len (i + cs) - ov)).isSome := by
          apply ih
          rw [hmin]
          omega
        rcases Option.isSome_iff_exists.mp hrec with ⟨rest, hrest⟩
        simp [chunkSpans, hi, hend, hrest]
    · simp [chunkSpans, hi]

/-- Every position of the cleaned text below `len` lies inside one of the visited
spans: consecutive spans start at `end - overlap ≤ end`, so no gap opens, and the
last span ends at `len`. -/
theorem chunkSpans_cover (len cs ov : Nat) :
    ∀ fuel i spans, chunkSpans len cs ov fuel i = some spans →
      ∀ p, i ≤ p → p < len → ∃ ab ∈ spans, ab.1 ≤ p ∧ p < ab.2 := by
  intro fuel
  induction fuel with
  | zero => intro i spans h; simp [chunkSpans] at h
  | succ n ih =>
    intro i spans h p hip hplen
    rw [chunkSpans_succ] at h
    by_cases hi : i < len
    · rw [if_pos hi] at h
      by_cases hend : len ≤ min len (i + cs)
      · have hmin : min len (i + cs) = len :=
          le_antisymm (min_le_left _ _) hend
        rw [if_pos hend] at h
        injection h with h
        subst h
        exact ⟨(i, min len (i + cs)), by simp, hip, by rw [hmin]; exact hplen⟩
      · rw [if_neg hend] at h
        rcases hmatch : chunkSpans len cs ov n (min len (i + cs) - ov) with _ | rest
        · rw [hmatch] at h
          exact absurd h (by simp)
        · rw [hmatch] at h
          injection h with h
          subst h
          by_cases hp : p < min len (i + cs)
          · exact ⟨(i, min len (i + cs)), by simp, hip, hp⟩
          · have hstep : min len (i + cs) - ov ≤ p :=
              le_trans (Nat.sub_le _ _) (le_of_not_lt hp)
            rcases ih _ rest hmatch p hstep hplen with ⟨ab, hab, h1, h2⟩
            exact ⟨ab, by simp [hab], h1, h2⟩
    · omega

/-- Every fragment `chunkText` emits has (trimmed) length above 80: a slice is only
pushed when its trimmed form is longer than 80 characters. -/
theorem chunkText_length_gt (text : String) (cs ov : Nat) :
    ∀ c ∈ chunkText text cs ov, 80 < c.length := by
  intro c hc
  unfold chunkText chunkTextFuel at hc
  rcases h : chunkSpans (cleanChars text.data).length cs ov
      ((cleanChars text.data).length + 1) 0 with _ | spans
  · rw [h] at hc; simp at hc
  · rw [h] at hc
    simp only [Option.map_some', Option.getD_some, List.mem_filterMap] at hc
    rcases hc with ⟨ab, _, hab⟩
    by_cases hlen : 80 < (spanChunk (cleanChars text.data) ab).length
    · simp only [hlen, if_pos] at hab
      cases hab
      simpa using hlen
    · simp [hlen] at hab

/-- C2: the claim asserts termination of chunkText for every text, chunk size and
overlap.  Counterexample: with chunkSize = 1 and overlap = 1 (`overlap ≥ chunkSize`)
on the text "ab", the loop computes `end = 1 < 2` and resets `i = max(0, 1 - 1) = 0`,
repeating the same state forever: the floor at 0 does not give forward progress. -/
theorem c2_counterexample : ¬ ChunkTerminates "ab" 1 1 := by
  rintro ⟨fuel, hfuel⟩
  have hnone : chunkTextFuel "ab" 1 1 fuel = none := by
    show (chunkSpans (cleanChars "ab".data).length 1 1 fuel 0).map _ = none
    have h2 : (cleanChars "ab".data).length = 2 := by decide
    rw [h2, chunkSpans_ab_none fuel]
    rfl
  rw [hnone] at hfuel
  simp at hfuel

/-- C2 amended: chunkText terminates and returns a finite list of fragments for
every input text whenever `overlap < chunkSize`; the break at `end ≥ length` plus
the advance `i ← end - overlap` then gain at least one character per iteration. -/
theorem c2_chunkText_terminates (text : String) (cs ov : Nat) (hov : ov < cs) :
    ChunkTerminates text cs ov := by
  refine ⟨(cleanChars text.data).length + 1, ?_⟩
  show ((chunkSpans (cleanChars text.data).length cs ov _ 0).map _).isSome
  have hs := chunkSpans_isSome_of_lt (cleanChars text.data).length cs ov hov
      ((cleanChars text.data).length + 1) 0 (by omega)
  rcases Option.isSome_iff_exists.mp hs with ⟨spans, hspans⟩
  rw [hspans]
  rfl

/-- Witness for the amended C2 at a concrete configuration. -/
theorem c2_witness : 1 < 2 ∧ ChunkTerminates "ab" 2 1 :=
  ⟨by decide, c2_chunkText_terminates "ab" 2 1 (by decide)⟩

/-- C8: the claim asserts the emitted fragments' spans cover the full cleaned text.
Counterexample: fifty characters of input survive cleaning, but the single visited
span trims to 50 ≤ 80 characters and is discarded, so chunkText emits nothing and
no emitted span covers the text. -/
theorem c8_counterexample :
    chunkText "aaaaaaaaaaaaaaaaaaaaaaaaaaaaaaaaaaaaaaaaaaaaaaaaaa" 2500 250 = [] ∧
      (cleanChars "aaaaaaaaaaaaaaaaaaaaaaaaaaaaaaaaaaaaaaaaaaaaaaaaaa".data).length = 50 := by
  constructor <;> decide

/-- C8 amended: when `overlap < chunkSize` (so the loop terminates), every emitted
fragment has trimmed length above 80, and the candidate spans the loop visits —
including those discarded for being 80 characters or shorter after trimming — form
a contiguous run covering the full cleaned input text. -/
theorem c8_amended (text : String) (cs ov : Nat) (hov : ov < cs) :
    (∀ c ∈ chunkText text cs ov, 80 < c.length) ∧
      ∃ spans, chunkSpans (cleanChars text.data).length cs ov
          ((cleanChars text.data).length + 1) 0 = some spans ∧
        ∀ p < (cleanChars text.data).length, ∃ ab ∈ spans, ab.1 ≤ p ∧ p < ab.2 := by
  refine ⟨chunkText_length_gt text cs ov, ?_⟩
  have hs := chunkSpans_isSome_of_lt (cleanChars text.data).length cs ov hov
      ((cleanChars text.data).length + 1) 0 (by omega)
  rcases Option.isSome_iff_exists.mp hs with ⟨spans, hspans⟩
  exact ⟨spans, hspans, fun p hp =>
    chunkSpans_cover (cleanChars text.data).length cs ov _ 0 spans hspans p (Nat.zero_le p) hp⟩

/-- Witness for the amended C8 at a concrete configuration. -/
theorem c8_witness :
    250 < 2500 ∧
      ((∀ c ∈ chunkText "ab" 2500 250, 80 < c.length) ∧
        ∃ spans, chunkSpans (cleanChars "ab".data).length 2500 250
            ((cleanChars "ab".data).length + 1) 0 = some spans ∧
          ∀ p < (cleanChars "ab".data).length, ∃ ab ∈ spans, ab.1 ≤ p ∧ p < ab.2) :=
  ⟨by decide, c8_amended "ab" 2500 250 (by decide)⟩

/-! ## Ingestion script: stores, dedup and the embedding pool -/

namespace Ingest

/-- `CHUNK_SIZE` default. -/
def CHUNK_SIZE : Nat := 2500

/-- `CHUNK_OVERLAP` default. -/
def CHUNK_OVERLAP : Nat := 250

/-- `MAX_CHUNKS_PER_FILE` default of the ingestion script. -/
def MAX_CHUNKS_PER_FILE : Nat := 120

/-- One row of the `rag_chunks` table.  The database row id is identified with the
row's `content_hash`, which the store keeps unique. -/
structure ChunkRow where
  paper_file_id : String
  chunk_index : Nat
  content : String
  content_hash : String
  embedding_status : String
deriving DecidableEq, Repr

/-- The persistent state touched by `ingestOne`: the `rag_chunks` table and the
`chunk_id` column of `rag_embeddings` (the vector and model are irrelevant to
the dedup logic). -/
structure Store where
  rag_chunks : List ChunkRow
  rag_embeddings : List String
deriving DecidableEq, Repr

/-- Supabase `upsert` with `onConflict: "content_hash"`, per the FragmentStore
contract (§4.3): a row whose `content_hash` is already stored leaves the table
unchanged, a fresh one is appended. -/
def upsertRow (st : Store) (r : ChunkRow) : Store :=
  if st.rag_chunks.any (fun c => c.content_hash = r.content_hash) then st
  else { st with rag_chunks := st.rag_chunks ++ [r] }

/-- Upsert of the whole `chunkRows` batch. -/
def upsertChunks (st : Store) (rows : List ChunkRow) : Store :=
  rows.foldl upsertRow st

/-- The read-back of `rag_chunks` for one document:
`select ... .eq("paper_file_id", id)` (returned in table order; the claims proved
here do not depend on the `chunk_index` ordering). -/
def listChunks (st : Store) (id : String) : List ChunkRow :=
  st.rag_chunks.filter (fun c => c.paper_file_id = id)

/-- The embedding workers' writes for the fragments of `toEmbed`, on the
all-success path: one `rag_embeddings` insert per chunk id plus the
`embedding_status = "done"` update. -/
def insertEmbeddings (st : Store) (ids : List String) : Store :=
  { rag_chunks := st.rag_chunks.map (fun c =>
      if c.content_hash ∈ ids then { c with embedding_status := "done" } else c),
    rag_embeddings := st.rag_embeddings ++ ids }

/-- `sha256(`${id}:${idx}:${content}`)`, abstracted over the hash function: every
theorem below holds for an arbitrary `hash`, determinism being the only property
the code relies on. -/
def hashOf (hash : String → String) (id : String) (idx : Nat) (content : String) : String :=
  hash (id ++ ":" ++ toString idx ++ ":" ++ content)

/-- The `chunkRows` array built by `ingestOne`. -/
def chunkRowsFor (hash : String → String) (id : String) (chunks : List String) :
    List ChunkRow :=
  chunks.enum.map (fun p =>
    { paper_file_id := id, chunk_index := p.1, content := p.2,
      content_hash := hashOf hash id p.1 p.2, embedding_status := "pending" })

/-- `(parsed?.text || "").trim()`: the extracted text of a document, trimmed. -/
def trimmedText (text : String) : String := String.mk (trimChars text.data)

/-- The capped chunk list of one document: `chunkText` output cut to
`MAX_CHUNKS_PER_FILE`. -/
def ingestChunks (text : String) : List String :=
  (chunkText (trimmedText text) CHUNK_SIZE CHUNK_OVERLAP).take MAX_CHUNKS_PER_FILE

/-- The `chunkRows` array `ingestOne` upserts for one document. -/
def ingestRows (hash : String → String) (id : String) (text : String) : List ChunkRow :=
  chunkRowsFor hash id (ingestChunks text)

/-- `toEmbed`: the document's stored chunks whose id is absent from the
already-stored embeddings (the existence check of `ingestOne`). -/
def embedTargets (st : Store) (id : String) : List ChunkRow :=
  (listChunks st id).filter (fun c => c.content_hash ∉ st.rag_embeddings)

/-- `ingestOne` on one document whose extracted text is given, on the happy path
(download, parse and database reads succeed, every embedding insert succeeds):
skip short texts, chunk, cap at `MAX_CHUNKS_PER_FILE`, upsert keyed on
`content_hash`, read the document's chunks back, keep those without a stored
embedding, embed them, and return `(chunksMade, embedsMade)` with the new store. -/
def ingestOne (hash : String → String) (id : String) (text : String) (st : Store) :
    (Nat × Nat) × Store :=
  if (trimmedText text).length < 200 then ((0, 0), st)
  else
    (((ingestChunks text).length,
        (embedTargets (upsertChunks st (ingestRows hash id text)) id).length),
      insertEmbeddings (upsertChunks st (ingestRows hash id text))
        ((embedTargets (upsertChunks st (ingestRows hash id text)) id).map
          (fun c => c.content_hash)))

/-- The hashes stored in a chunk table. -/
def Store.hashes (st : Store) : List String :=
  st.rag_chunks.map (fun c => c.content_hash)

theorem upsertRow_of_mem {st : Store} {r : ChunkRow}
    (h : r.content_hash ∈ st.hashes) : upsertRow st r = st := by
  have : st.rag_chunks.any (fun c => c.content_hash = r.content_hash) = true := by
    rcases List.mem_map.mp h with ⟨c, hc, hch⟩
    exact List.any_eq_true.mpr ⟨c, hc, by simp [hch]⟩
  simp [upsertRow, this]

theorem upsertRow_hashes_mono {st : Store} {r : ChunkRow} {x : String}
    (h : x ∈ st.hashes) : x ∈ (upsertRow st r).hashes := by
  unfold upsertRow
  split
  · exact h
  · simp only [Store.hashes, List.map_append] at h ⊢
    exact List.mem_append_left _ h

theorem upsertRow_hash_self (st : Store) (r : ChunkRow) :
    r.content_hash ∈ (upsertRow st r).hashes := by
  unfold upsertRow
  split
  · next hany =>
    rcases List.any_eq_true.mp hany with ⟨c, hc, hch⟩
    simp only [decide_eq_true_eq] at hch
    exact List.mem_map.mpr ⟨c, hc, hch⟩
  · simp [Store.hashes]

theorem upsertChunks_hashes_mono {st : Store} {x : String} (rows : List ChunkRow)
    (h : x ∈ st.hashes) : x ∈ (upsertChunks st rows).hashes := by
  induction rows generalizing st with
  | nil => exact h
  | cons r rest ih => exact ih (upsertRow_hashes_mono h)

theorem upsertChunks_hash_mem (st : Store) (rows : List ChunkRow) :
    ∀ r ∈ rows, r.content_hash ∈ (upsertChunks st rows).hashes := by
  induction rows generalizing st with
  | nil => intro r hr; cases hr
  | cons r0 rest ih =>
    intro r hr
    rcases List.mem_cons.mp hr with rfl | hr
    · exact upsertChunks_hashes_mono rest (upsertRow_hash_self st r)
    · exact ih (upsertRow st r0) r hr

theorem upsertChunks_of_mem {st : Store} {rows : List ChunkRow}
    (h : ∀ r ∈ rows, r.content_hash ∈ st.hashes) : upsertChunks st rows = st := by
  induction rows with
  | nil => rfl
  | cons r rest ih =>
    have h0 : upsertRow st r = st := upsertRow_of_mem (h r (List.mem_cons_self r rest))
    show upsertChunks (upsertRow st r) rest = st
    rw [h0]
    exact ih (fun r' hr' => h r' (List.mem_cons_of_mem r hr'))

theorem insertEmbeddings_hashes (st : Store) (ids : List String) :
    (insertEmbeddings st ids).hashes = st.hashes := by
  simp only [insertEmbeddings, Store.hashes, List.map_map]
  apply List.map_congr_left
  intro c _
  by_cases h : c.content_hash ∈ ids <;> simp [h]

theorem listChunks_insertEmbeddings (st : Store) (ids : List String) (id : String) :
    listChunks (insertEmbeddings st ids) id =
      (listChunks st id).map (fun c =>
        if c.content_hash ∈ ids then { c with embedding_status := "done" } else c) := by
  simp only [listChunks, insertEmbeddings, List.filter_map]
  congr 1
  apply List.filter_congr
  intro c _
  by_cases h : c.content_hash ∈ ids <;> simp [h]

theorem insertEmbeddings_nil (st : Store) : insertEmbeddings st [] = st := by
  simp [insertEmbeddings]

/-- The status update of a worker never changes a row's content hash. -/
theorem content_hash_statusUpdate (c : ChunkRow) (ids : List String) :
    (if c.content_hash ∈ ids then { c with embedding_status := "done" } else c).content_hash
      = c.content_hash := by
  split <;> rfl

/-- After the embedding phase of a run, the existence check finds every chunk of
the document embedded: nothing is left to embed. -/
theorem embedTargets_insert_nil (st : Store) (id : String) :
    embedTargets
        (insertEmbeddings st ((embedTargets st id).map (fun c => c.content_hash))) id
      = [] := by
  unfold embedTargets
  rw [listChunks_insertEmbeddings, List.filter_map, List.map_eq_nil_iff,
    List.filter_eq_nil_iff]
  intro c hc
  simp only [Function.comp_apply, decide_eq_true_eq, not_not,
    content_hash_statusUpdate]
  show c.content_hash ∈ st.rag_embeddings ++ _
  by_cases hm : c.content_hash ∈ st.rag_embeddings
  · exact List.mem_append_left _ hm
  · refine List.mem_append_right _ (List.mem_map.mpr ⟨c, ?_, rfl⟩)
    exact List.mem_filter.mpr ⟨hc, by simpa using hm⟩

/-- C1: re-running ingestOne a second time on the same document with identical
extracted text is a no-op: the second run computes the same chunk rows with the
same content hashes (all already stored after the first run), the upsert keyed on
content_hash leaves the stored rows unchanged, the existence check over stored
embeddings leaves an empty set to embed, and the second run inserts zero new
embeddings. -/
theorem c1_ingest_idempotent (hash : String → String) (id text : String) (st : Store) :
    (ingestOne hash id text (ingestOne hash id text st).2).2
        = (ingestOne hash id text st).2 ∧
      ((ingestOne hash id text (ingestOne hash id text st).2).1).2 = 0 ∧
      (¬ (trimmedText text).length < 200 →
        ∀ r ∈ ingestRows hash id text,
          r.content_hash ∈ ((ingestOne hash id text st).2).hashes) := by
  by_cases hshort : (trimmedText text).length < 200
  · simp [ingestOne, hshort]
  · set S1 := (ingestOne hash id text st).2 with hS1
    have hrun1 : S1 =
        insertEmbeddings (upsertChunks st (ingestRows hash id text))
          ((embedTargets (upsertChunks st (ingestRows hash id text)) id).map
            (fun c => c.content_hash)) := by
      rw [hS1]
      simp [ingestOne, hshort]
    have hmem : ∀ r ∈ ingestRows hash id text, r.content_hash ∈ S1.hashes := by
      intro r hr
      rw [hrun1, insertEmbeddings_hashes]
      exact upsertChunks_hash_mem st (ingestRows hash id text) r hr
    have hup2 : upsertChunks S1 (ingestRows hash id text) = S1 :=
      upsertChunks_of_mem hmem
    have htarg : embedTargets S1 id = [] := by
      rw [hrun1]
      exact embedTargets_insert_nil _ id
    have hrun2 : ingestOne hash id text S1 = (((ingestChunks text).length, 0), S1) := by
      unfold ingestOne
      rw [if_neg hshort, hup2, htarg]
      simp [insertEmbeddings_nil]
    exact ⟨by rw [hrun2], by rw [hrun2], fun _ => hmem⟩

set_option maxRecDepth 10000 in
/-- Witness for C1 at a concrete 250-character document over the empty store. -/
theorem c1_witness :
    ¬ (trimmedText (String.mk (List.replicate 250 'a'))).length < 200 ∧
      ((ingestOne (fun s => s) "doc" (String.mk (List.replicate 250 'a'))
          ((ingestOne (fun s => s) "doc" (String.mk (List.replicate 250 'a'))
            (Store.mk [] [])).2)).1).2 = 0 :=
  ⟨by decide,
    (c1_ingest_idempotent (fun s => s) "doc" (String.mk (List.replicate 250 'a'))
      (Store.mk [] [])).2.1⟩

/-! ### The embedding worker pool and its failure behaviour -/

/-- The possible outcomes of one worker iteration of the embedding pool in
`ingestOne`: the `embedWithOllama` call may throw, the `rag_embeddings` insert may
return an error, or both succeed. -/
inductive EmbedOutcome
  | embedFail
  | insertFail
  | ok
deriving DecidableEq, Repr

/-- The embedding phase of `ingestOne` over its `toEmbed` list, given each
fragment's outcome, with the pool modelled as sequential processing.  A thrown
`embedWithOllama` error is uncaught inside the worker, so it propagates out of
`runPool` (`Except.error`); an insert error is logged and skipped (`embedsMade`
unchanged); a success increments `embedsMade`. -/
def embedPhase : List EmbedOutcome → Except Unit Nat
  | [] => .ok 0
  | .embedFail :: _ => .error ()
  | .insertFail :: rest => embedPhase rest
  | .ok :: rest => (embedPhase rest).map (· + 1)

/-- C3: the claim asserts that an embedding-service error on one fragment is logged
and skipped, with the remaining fragments processed and the counts still returned.
Counterexample: one `embedWithOllama` failure makes the whole phase raise — the
sibling successful fragment is not counted and no counts are returned. -/
theorem c3_counterexample :
    embedPhase [EmbedOutcome.insertFail, EmbedOutcome.embedFail, EmbedOutcome.ok]
      = Except.error () := by
  rfl

/-- C3 amended: an insert error on one fragment is logged and skipped only — every
other fragment is still processed and the count of successful embeddings is
returned — but an embedding-service error propagates out of the pool and aborts
the run instead of being skipped.  With no embedding-service error, the phase
returns the number of fragments whose insert succeeded. -/
theorem c3_amended (outs : List EmbedOutcome)
    (h : EmbedOutcome.embedFail ∉ outs) :
    embedPhase outs = Except.ok (outs.count EmbedOutcome.ok) := by
  induction outs with
  | nil => rfl
  | cons o rest ih =>
    have ho : o ≠ EmbedOutcome.embedFail := fun he => h (he ▸ List.mem_cons_self o rest)
    have hrest : EmbedOutcome.embedFail ∉ rest := fun hm => h (List.mem_cons_of_mem o hm)
    cases o with
    | embedFail => exact absurd rfl ho
    | insertFail =>
      rw [show embedPhase (EmbedOutcome.insertFail :: rest) = embedPhase rest from rfl,
        ih hrest]
      simp [List.count_cons]
    | ok =>
      rw [show embedPhase (EmbedOutcome.ok :: rest) = (embedPhase rest).map (· + 1) from rfl,
        ih hrest]
      simp [List.count_cons, Except.map]

/-- Witness for the amended C3 at a concrete outcome list. -/
theorem c3_witness :
    EmbedOutcome.embedFail ∉ [EmbedOutcome.ok, EmbedOutcome.insertFail, EmbedOutcome.ok] ∧
      embedPhase [EmbedOutcome.ok, EmbedOutcome.insertFail, EmbedOutcome.ok]
        = Except.ok 2 :=
  ⟨by decide,
    by
      rw [c3_amended [EmbedOutcome.ok, EmbedOutcome.insertFail, EmbedOutcome.ok]
        (by decide)]
      rfl⟩

end Ingest

/-! ## RAG query router -/

namespace Rag

/-- JS `toLowerCase` on a character list (the ASCII range, which covers every
keyword the classifier compares against). -/
def lowerChars (l : List Char) : List Char := l.map Char.toLower

/-- `const q = question.toLowerCase().trim()` of `classifyIntent`. -/
def normalizeQ (question : String) : List Char := trimChars (lowerChars question.data)

/-- JS `String.prototype.includes`: substring containment. -/
def containsSub (needle : List Char) : List Char → Bool
  | [] => needle.isEmpty
  | c :: rest => needle.isPrefixOf (c :: rest) || containsSub needle rest

/-- `q.includes(needle)`. -/
def jsIncludes (q : List Char) (needle : String) : Bool := containsSub needle.data q

/-- The exact greeting alternatives of the first smalltalk regex. -/
def smalltalkWords : List String :=
  ["hello", "hi", "hey", "thanks", "thank you", "ok", "okay", "yes", "no", "sure",
   "good", "great", "nice", "cool", "bye", "goodby"]

/-- The filler alternatives of the third smalltalk regex. -/
def fillerWords : List String := ["lol", "haha", "hmm", "umm", "err"]

/-- The second smalltalk regex `^[\?\!\.]{1,3}$`. -/
def isPunctRun (q : List Char) : Bool :=
  decide (1 ≤ q.length) && decide (q.length ≤ 3) &&
    q.all (fun c => c == '?' || c == '!' || c == '.')

/-- `smalltalkPatterns.some((p) => p.test(q))`. -/
def isSmalltalk (q : List Char) : Bool :=
  smalltalkWords.any (fun w => w.data == q) || isPunctRun q ||
    fillerWords.any (fun w => w.data == q)

/-- The fixed ordered subject keyword list of `classifyIntent`. -/
def subjects : List String :=
  ["chemistry", "physics", "biology", "mathematics", "islamiyat", "urdu", "english",
   "computer", "economics", "history", "geography", "art", "music",
   "english language", "english literature"]

/-- The recognized file-type abbreviations, in detection order. -/
def fileTypeIndicators : List String := ["qp", "ms", "er", "gt"]

/-- JS regex word character `\w`. -/
def isWordChar (c : Char) : Bool := c.isAlphanum || c == '_'

/-- A `\b` word boundary holds before the match start. -/
def boundaryBefore : Option Char → Bool
  | none => true
  | some c => !isWordChar c

/-- A `\b` word boundary holds after the match end. -/
def boundaryAfter : List Char → Bool
  | [] => true
  | c :: _ => !isWordChar c

/-- First (leftmost) match of `\b(20\d{2})\b`, returning `parseInt` of the match. -/
def findYear : Option Char → List Char → Option Nat
  | prev, c1 :: c2 :: c3 :: c4 :: rest =>
    if boundaryBefore prev ∧ c1 = '2' ∧ c2 = '0' ∧ c3.isDigit ∧ c4.isDigit ∧
        boundaryAfter rest
    then some (2000 + 10 * (c3.toNat - 48) + (c4.toNat - 48))
    else findYear (some c1) (c2 :: c3 :: c4 :: rest)
  | _, c :: rest => findYear (some c) rest
  | _, [] => none

/-- First (leftmost) match of `\b(p1|p2|p3)\b` on the already-lowercased question,
returning `match[1].toUpperCase()`. -/
def findPaper : Option Char → List Char → Option String
  | prev, c1 :: c2 :: rest =>
    if boundaryBefore prev ∧ c1 = 'p' ∧ (c2 = '1' ∨ c2 = '2' ∨ c2 = '3') ∧
        boundaryAfter rest
    then some (String.mk ['P', c2])
    else findPaper (some c1) (c2 :: rest)
  | _, [_] => none
  | _, [] => none

/-- First-match-wins subject detection: `for (const subject of subjects) if
(q.includes(subject)) ...`. -/
def detectSubject (q : List Char) : Option String :=
  subjects.find? (fun s => jsIncludes q s)

/-- JS `toUpperCase` on an ASCII string. -/
def jsToUpper (s : String) : String := String.mk (s.data.map Char.toUpper)

/-- First-match-wins file-type detection: `for (const ft of fileTypeIndicators)
if (q.includes(ft)) ...`, upper-cased. -/
def detectFileType (q : List Char) : Option String :=
  (fileTypeIndicators.find? (fun ft => jsIncludes q ft)).map jsToUpper

/-- The classifier's intents. -/
inductive Intent
  | paper_lookup
  | exam_question
  | smalltalk
deriving DecidableEq, Repr

/-- The metadata extracted with a paper_lookup classification. -/
structure IntentMetadata where
  subject : Option String
  year : Option Nat
  paper : Option String
  fileType : Option String
deriving DecidableEq, Repr

/-- The classifier's result. -/
structure ClassificationResult where
  intent : Intent
  metadata : Option IntentMetadata
deriving DecidableEq, Repr

/-- `classifyIntent`: smalltalk check first, then paper lookup when a subject and at
least one of year / file type / paper token were detected, else exam_question.
(JS truthiness on the detections coincides with `isSome`: a detected year is
at least 2000 and detected paper/file-type strings are nonempty.) -/
def classifyIntent (question : String) : ClassificationResult :=
  if isSmalltalk (normalizeQ question) then ⟨Intent.smalltalk, none⟩
  else if (detectSubject (normalizeQ question)).isSome ∧
      ((findYear none (normalizeQ question)).isSome ∨
        (detectFileType (normalizeQ question)).isSome ∨
        (findPaper none (normalizeQ question)).isSome) then
    ⟨Intent.paper_lookup,
      some ⟨detectSubject (normalizeQ question), findYear none (normalizeQ question),
        findPaper none (normalizeQ question), detectFileType (normalizeQ question)⟩⟩
  else ⟨Intent.exam_question, none⟩

/-- Whitespace tokens of a character list (empty tokens may appear; they never
equal a file-type abbreviation, so they do not affect the claim-side check). -/
def splitWs : List Char → List Char → List (List Char)
  | [], acc => [acc.reverse]
  | c :: rest, acc =>
    if c.isWhitespace then acc.reverse :: splitWs rest [] else splitWs rest (c :: acc)

/-- The file-type condition as claim C5 states it: a recognized file-type
abbreviation occurring as a whitespace-delimited token of the question. -/
def specFileTypeToken (q : List Char) : Bool :=
  (splitWs q []).any (fun t => fileTypeIndicators.any (fun ft => ft.data == t))

/-- The paper-lookup condition exactly as claim C5 states it: not smalltalk, a
recognized subject keyword, and at least one of a `20xx` year, a `p1/p2/p3` token,
or a file-type abbreviation occurring as a token. -/
def specPaperLookupCond (question : String) : Bool :=
  !isSmalltalk (normalizeQ question) && (detectSubject (normalizeQ question)).isSome &&
    ((findYear none (normalizeQ question)).isSome ||
      (findPaper none (normalizeQ question)).isSome ||
      specFileTypeToken (normalizeQ question))

/-- C5: the claim requires the file-type abbreviation to occur as a token, but the
code tests `q.includes(ft)` — a substring check.  Counterexample: "chemistry paper"
contains the substring "er" inside the word "paper", so the code classifies it as
paper_lookup although the claim's condition does not hold. -/
theorem c5_counterexample :
    (classifyIntent "chemistry paper").intent = Intent.paper_lookup ∧
      specPaperLookupCond "chemistry paper" = false := by
  constructor <;> decide

/-- C5 amended: classifyIntent returns paper_lookup (with whichever of subject,
year, paper and file type were detected) exactly when the normalized question is
not smalltalk, contains a recognized subject keyword as a substring, and contains
a `20xx` year, a `p1/p2/p3` token, or a file-type abbreviation as a *substring*
(checked in order qp, ms, er, gt). -/
theorem c5_amended (question : String) :
    ((classifyIntent question).intent = Intent.paper_lookup ↔
      (¬ isSmalltalk (normalizeQ question) = true ∧
        (detectSubject (normalizeQ question)).isSome = true ∧
        ((findYear none (normalizeQ question)).isSome = true ∨
          (detectFileType (normalizeQ question)).isSome = true ∨
          (findPaper none (normalizeQ question)).isSome = true))) ∧
      ((classifyIntent question).intent = Intent.paper_lookup →
        (classifyIntent question).metadata =
          some ⟨detectSubject (normalizeQ question), findYear none (normalizeQ question),
            findPaper none (normalizeQ question),
            detectFileType (normalizeQ question)⟩) := by
  unfold classifyIntent
  by_cases hs : isSmalltalk (normalizeQ question) = true
  · simp [hs]
  · by_cases hc : (detectSubject (normalizeQ question)).isSome = true ∧
        ((findYear none (normalizeQ question)).isSome = true ∨
          (detectFileType (normalizeQ question)).isSome = true ∨
          (findPaper none (normalizeQ question)).isSome = true)
    · simp [hs, hc]
    · simp [hs, hc]

/-- Witness for the amended C5 at the spec's own example question. -/
theorem c5_witness :
    (classifyIntent "chemistry 2022 qp").intent = Intent.paper_lookup ∧
      (classifyIntent "chemistry 2022 qp").metadata =
        some ⟨some "chemistry", some 2022, none, some "QP"⟩ := by
  refine ⟨by decide, ?_⟩
  have h := (c5_amended "chemistry 2022 qp").2 (by decide)
  rw [h]
  decide

/-- `containsSub` decides substring containment. -/
theorem containsSub_eq_true_iff (needle : List Char) :
    ∀ l, containsSub needle l = true ↔ needle <:+: l := by
  intro l
  induction l with
  | nil => simp [containsSub, List.isEmpty_iff]
  | cons c rest ih =>
    simp [containsSub, ih, List.infix_cons_iff, List.isPrefixOf_iff_prefix]

/-- Substring containment is monotone in the needle. -/
theorem containsSub_mono {n1 n2 l : List Char} (hn : n1 <:+: n2)
    (h : containsSub n2 l = true) : containsSub n1 l = true := by
  rw [containsSub_eq_true_iff] at h ⊢
  exact hn.trans h

/-- The subjects list, split around the entry "english". -/
theorem subjects_split :
    subjects =
      ["chemistry", "physics", "biology", "mathematics", "islamiyat", "urdu"] ++
        "english" :: ["computer", "economics", "history", "geography", "art", "music",
          "english language", "english literature"] := rfl

/-- First-match-wins subject detection can never pick "english language" or
"english literature": any question containing either contains "english", which
comes first in the list. -/
theorem detectSubject_not_long_english (q : List Char) :
    detectSubject q ≠ some "english language" ∧
      detectSubject q ≠ some "english literature" := by
  by_cases he : jsIncludes q "english" = true
  · have heng : List.find? (fun s => jsIncludes q s)
        ("english" :: ["computer", "economics", "history", "geography", "art", "music",
          "english language", "english literature"]) = some "english" :=
      List.find?_cons_of_pos _ (by exact he)
    rw [detectSubject, subjects_split, List.find?_append, heng]
    rcases hfront : List.find?
        (fun s => jsIncludes q s)
        ["chemistry", "physics", "biology", "mathematics", "islamiyat", "urdu"]
      with _ | x
    · simp
    · have hx := List.mem_of_find?_eq_some hfront
      constructor <;> intro hEq <;> simp at hEq <;> rw [hEq] at hx <;> revert hx <;> decide
  · constructor <;> intro hEq <;>
      have hp := List.find?_some hEq <;>
      refine he (containsSub_mono ?_ (by simpa [jsIncludes] using hp)) <;>
      decide

/-- C10: classifyIntent can never report the subjects "english language" or
"english literature" in its metadata: the entry "english" precedes both in the
fixed ordered subject list and is a substring of each, so the first-match-wins
loop always stops at "english" (or earlier). -/
theorem c10_long_english_unreachable (question : String) (m : IntentMetadata)
    (h : (classifyIntent question).metadata = some m) :
    m.subject ≠ some "english language" ∧ m.subject ≠ some "english literature" := by
  unfold classifyIntent at h
  split at h
  · exact absurd h (by simp)
  · split at h
    · injection h with h
      subst h
      simpa using detectSubject_not_long_english (normalizeQ question)
    · exact absurd h (by simp)

/-- Witness for C10 at a concrete classified question. -/
theorem c10_witness :
    (classifyIntent "chemistry 2022 ms").metadata =
        some (IntentMetadata.mk (some "chemistry") (some 2022) none (some "MS")) ∧
      ((IntentMetadata.mk (some "chemistry") (some 2022) none (some "MS")).subject ≠
          some "english language" ∧
        (IntentMetadata.mk (some "chemistry") (some 2022) none (some "MS")).subject ≠
          some "english literature") :=
  ⟨by decide,
    c10_long_english_unreachable "chemistry 2022 ms"
      (IntentMetadata.mk (some "chemistry") (some 2022) none (some "MS")) (by decide)⟩

/-! ### The deterministic keyword-hash fallback embedding of ragRetrieval -/

/-- `question.toLowerCase().split(/\s+/).filter(w => w.length > 3)`.  The
single-character splitter may emit empty pieces for whitespace runs; the length
filter discards them, so the keyword list agrees with the `\s+` split. -/
def fallbackKeywords (question : String) : List String :=
  ((splitWs (lowerChars question.data) []).map String.mk).filter (fun w => 3 < w.length)

/-- `seed = keyword.charCodeAt(0) + keyword.charCodeAt(keyword.length - 1)`. -/
def tokenSeed (kw : String) : Nat :=
  (kw.data.headD ' ').toNat + (kw.data.getLastD ' ').toNat

/-- The inner loop of the fallback, counted in hundredths: every contribution
`((seed * (i + 1)) % 100) / 100` is a whole number of hundredths, so the vector
the code accumulates is exactly this natural-number vector divided by 100.  The
contributions are added at positions `(idx * 5 + i) % 384` (`min(5, 384) = 5`). -/
def scatterToken (v : List Nat) (idx : Nat) (kw : String) : List Nat :=
  (List.range 5).foldl (fun v i =>
    v.set ((idx * 5 + i) % 384)
      (v.getD ((idx * 5 + i) % 384) 0 + (tokenSeed kw * (i + 1)) % 100)) v

/-- The fallback accumulation over all keywords, in hundredths. -/
def rawFallbackHundredths (question : String) : List Nat :=
  ((fallbackKeywords question).enum).foldl (fun v p => scatterToken v p.1 p.2)
    (List.replicate 384 0)

/-- The raw fallback vector the code builds before normalization. -/
def rawFallbackVec (question : String) : List ℚ :=
  (rawFallbackHundredths question).map (fun n => (Nat.cast n : ℚ) / 100)

/-- Sum of squares over ℕ. -/
def sumSqN (v : List Nat) : Nat := (v.map (fun x => x * x)).sum

/-- Sum of squares over ℚ. -/
def sumSq (v : List ℚ) : ℚ := (v.map (fun x => x * x)).sum

/-- Sum of squares over ℝ. -/
def sumSqR (v : List ℝ) : ℝ := (v.map (fun x => x * x)).sum

/-- The normalization step of the fallback: divide by the L2 norm when it is
positive (JS floats modelled as reals). -/
noncomputable def fallbackVec (question : String) : List ℝ :=
  if 0 < Real.sqrt (Rat.cast (sumSq (rawFallbackVec question)) : ℝ) then
    List.map
      (fun x => (Rat.cast x : ℝ) / Real.sqrt (Rat.cast (sumSq (rawFallbackVec question)) : ℝ))
      (rawFallbackVec question)
  else List.map (fun x => (Rat.cast x : ℝ)) (rawFallbackVec question)

theorem scatterToken_length (v : List Nat) (idx : Nat) (kw : String) :
    (scatterToken v idx kw).length = v.length := by
  unfold scatterToken
  generalize List.range 5 = is
  induction is generalizing v with
  | nil => rfl
  | cons i rest ih => rw [List.foldl_cons, ih, List.length_set]

theorem rawFallbackVec_length (question : String) :
    (rawFallbackVec question).length = 384 := by
  have h : ∀ (ps : List (Nat × String)) (v : List Nat),
      (ps.foldl (fun v p => scatterToken v p.1 p.2) v).length = v.length := by
    intro ps
    induction ps with
    | nil => intro v; rfl
    | cons p rest ih => intro v; rw [List.foldl_cons, ih, scatterToken_length]
  rw [rawFallbackVec, List.length_map, rawFallbackHundredths, h, List.length_replicate]

theorem sumSq_cons (x : ℚ) (xs : List ℚ) : sumSq (x :: xs) = x * x + sumSq xs := by
  simp [sumSq]

theorem sumSqN_cons (x : Nat) (xs : List Nat) :
    sumSqN (x :: xs) = x * x + sumSqN xs := by
  simp [sumSqN]

theorem sumSqR_cons (x : ℝ) (xs : List ℝ) :
    sumSqR (x :: xs) = x * x + sumSqR xs := by
  simp [sumSqR]

theorem sumSq_nonneg (v : List ℚ) : 0 ≤ sumSq v := by
  apply List.sum_nonneg
  intro x hx
  rcases List.mem_map.mp hx with ⟨y, _, rfl⟩
  exact mul_self_nonneg y

/-- The sum of squares of the hundredths vector determines the rational one. -/
theorem sumSq_map_div100 (l : List Nat) :
    sumSq (l.map (fun n => (Nat.cast n : ℚ) / 100)) = (sumSqN l : ℚ) / 10000 := by
  induction l with
  | nil => simp [sumSq, sumSqN]
  | cons x xs ih =>
    rw [List.map_cons, sumSq_cons, ih, sumSqN_cons]
    push_cast
    ring

theorem sumSqR_map_div (v : List ℚ) (n : ℝ) (hn : n ≠ 0) :
    sumSqR (List.map (fun x => (Rat.cast x : ℝ) / n) v) = (Rat.cast (sumSq v) : ℝ) / n ^ 2 := by
  induction v with
  | nil => simp [sumSqR, sumSq]
  | cons x xs ih =>
    rw [List.map_cons, sumSqR_cons, ih]
    have hs : (Rat.cast (sumSq (x :: xs)) : ℝ)
        = (Rat.cast x : ℝ) * (Rat.cast x : ℝ) + (Rat.cast (sumSq xs) : ℝ) := by
      rw [sumSq_cons]
      push_cast
      ring
    rw [hs]
    field_simp
    ring

/-- C4: the fallback embedding is deterministic (in this pure model, the function
of the question text), is 384-dimensional, and whenever any token contributes a
nonzero value the returned vector is L2-unit-normalized: its norm is within 1e-6
of 1 (in the real-number model, exactly 1). -/
theorem c4_fallback_deterministic_unit (q : String) :
    fallbackVec q = fallbackVec q ∧ (fallbackVec q).length = 384 ∧
      (sumSq (rawFallbackVec q) ≠ 0 →
        |Real.sqrt (sumSqR (fallbackVec q)) - 1| ≤ 1 / 1000000) := by
  refine ⟨rfl, ?_, fun hS => ?_⟩
  · unfold fallbackVec
    split <;> rw [List.length_map, rawFallbackVec_length]
  · have hnn : 0 ≤ sumSq (rawFallbackVec q) := sumSq_nonneg _
    have hpos : 0 < sumSq (rawFallbackVec q) := lt_of_le_of_ne hnn (Ne.symm hS)
    have hposR : (0 : ℝ) < (Rat.cast (sumSq (rawFallbackVec q)) : ℝ) := by exact_mod_cast hpos
    have hsq : 0 < Real.sqrt (Rat.cast (sumSq (rawFallbackVec q)) : ℝ) :=
      Real.sqrt_pos.mpr hposR
    rw [fallbackVec, if_pos hsq, sumSqR_map_div _ _ (ne_of_gt hsq),
      Real.sq_sqrt (le_of_lt hposR), div_self (ne_of_gt hposR), Real.sqrt_one]
    norm_num

set_option maxRecDepth 100000 in
/-- On "what is osmosis" the tokens "what" and "osmosis" contribute nonzero
hundredths, so the accumulated sum of squares is nonzero. -/
theorem sumSq_osmosis_ne_zero : sumSq (rawFallbackVec "what is osmosis") ≠ 0 := by
  have hN : sumSqN (rawFallbackHundredths "what is osmosis") ≠ 0 := by decide
  rw [rawFallbackVec, sumSq_map_div100]
  exact div_ne_zero (by exact_mod_cast hN) (by norm_num)

/-- Witness for C4: "what is osmosis" has two keywords longer than three
characters, whose contributions are nonzero, so the fallback vector is unit. -/
theorem c4_witness :
    sumSq (rawFallbackVec "what is osmosis") ≠ 0 ∧
      |Real.sqrt (sumSqR (fallbackVec "what is osmosis")) - 1| ≤ 1 / 1000000 :=
  ⟨sumSq_osmosis_ne_zero,
    (c4_fallback_deterministic_unit "what is osmosis").2.2 sumSq_osmosis_ne_zero⟩

/-! ### Grouping of retrieval results (ragRetrieval steps 6-7) -/

/-- Pipeline limit `TOP_K`. -/
def TOP_K : Nat := 16

/-- Pipeline limit `MAX_CHUNKS_PER_FILE` of the query router. -/
def MAX_CHUNKS_PER_FILE : Nat := 2

/-- One chunk retained in a RetrievedGroup. -/
structure RagChunk where
  id : String
  content : String
  chunkIndex : Nat
  similarity : ℚ
deriving DecidableEq, Repr

/-- One RetrievedGroup of ragRetrieval. -/
structure GroupedResult where
  paperFileId : String
  filetype : String
  storagePath : String
  chunks : List RagChunk
  subject : String
  year : Nat
  session : String
  paper : String
deriving DecidableEq, Repr

/-- One enriched chunk row: a `rag_chunks` row joined with its paper-file, paper
and subject context. -/
structure EnrichedChunk where
  id : String
  chunk_index : Nat
  content : String
  paper_file_id : String
  file_type : String
  storage_path : String
  subjectCode : String
  year : Nat
  session : String
  paper : String
deriving DecidableEq, Repr

/-- `similarityMap.get(chunk.id) || 0`, the similarity map being an association
list built from the threshold-filtered search results. -/
def simOf (simMap : List (String × ℚ)) (id : String) : ℚ :=
  ((simMap.find? (fun p => p.1 = id)).map Prod.snd).getD 0

/-- The group shell created on first sight of a paper file. -/
def emptyGroup (c : EnrichedChunk) : GroupedResult :=
  { paperFileId := c.paper_file_id, filetype := c.file_type,
    storagePath := c.storage_path, chunks := [], subject := c.subjectCode,
    year := c.year, session := c.session, paper := c.paper }

/-- The chunk record pushed into a group. -/
def mkRagChunk (simMap : List (String × ℚ)) (c : EnrichedChunk) : RagChunk :=
  { id := c.id, content := c.content, chunkIndex := c.chunk_index,
    similarity := simOf simMap c.id }

/-- One `enrichedChunks.forEach` step: get or create the file's group, then push
the chunk only while the group holds fewer than `MAX_CHUNKS_PER_FILE` chunks.
The insertion-ordered `Map` is modelled as a list of groups. -/
def addChunk (simMap : List (String × ℚ)) (groups : List GroupedResult)
    (c : EnrichedChunk) : List GroupedResult :=
  if groups.any (fun g => g.paperFileId = c.paper_file_id) then
    groups.map (fun g =>
      if g.paperFileId = c.paper_file_id then
        if g.chunks.length < MAX_CHUNKS_PER_FILE then
          { g with chunks := g.chunks ++ [mkRagChunk simMap c] }
        else g
      else g)
  else
    groups ++ [if 0 < MAX_CHUNKS_PER_FILE then
      { emptyGroup c with chunks := [mkRagChunk simMap c] } else emptyGroup c]

/-- Steps 6-7 of ragRetrieval: group the enriched chunks by owning paper file. -/
def groupResults (simMap : List (String × ℚ)) (chunks : List EnrichedChunk) :
    List GroupedResult :=
  chunks.foldl (addChunk simMap) []

theorem addChunk_bound {simMap : List (String × ℚ)} {groups : List GroupedResult}
    {c : EnrichedChunk} (h : ∀ g ∈ groups, g.chunks.length ≤ MAX_CHUNKS_PER_FILE) :
    ∀ g ∈ addChunk simMap groups c, g.chunks.length ≤ MAX_CHUNKS_PER_FILE := by
  intro g hg
  unfold addChunk at hg
  split at hg
  · rcases List.mem_map.mp hg with ⟨g0, hg0, rfl⟩
    have h0 := h g0 hg0
    split
    · split
      · next hlen => simpa using hlen
      · exact h0
    · exact h0
  · rcases List.mem_append.mp hg with hg | hg
    · exact h g hg
    · rcases List.mem_singleton.mp hg with rfl
      split
      · show List.length [mkRagChunk simMap c] ≤ MAX_CHUNKS_PER_FILE
        simp [MAX_CHUNKS_PER_FILE]
      · show List.length ([] : List RagChunk) ≤ MAX_CHUNKS_PER_FILE
        simp [MAX_CHUNKS_PER_FILE]

/-- C7: every RetrievedGroup built by the grouping step holds at most
`MAX_CHUNKS_PER_FILE = 2` chunks, however many chunks of that document passed the
threshold. -/
theorem c7_group_cap (simMap : List (String × ℚ)) (chunks : List EnrichedChunk)
    (g : GroupedResult) (hg : g ∈ groupResults simMap chunks) :
    g.chunks.length ≤ MAX_CHUNKS_PER_FILE := by
  suffices h : ∀ (cs : List EnrichedChunk) (groups : List GroupedResult),
      (∀ g ∈ groups, g.chunks.length ≤ MAX_CHUNKS_PER_FILE) →
      ∀ g ∈ List.foldl (addChunk simMap) groups cs,
        g.chunks.length ≤ MAX_CHUNKS_PER_FILE by
    exact h chunks [] (by simp) g hg
  intro cs
  induction cs with
  | nil => intro groups h; simpa using h
  | cons c rest ih =>
    intro groups h
    exact ih _ (addChunk_bound h)

/-- Witness for C7: three above-threshold chunks of the same document leave a
single group capped at two retained chunks. -/
theorem c7_witness :
    GroupedResult.mk "f" "QP" "path"
        [RagChunk.mk "c1" "t1" 0 0, RagChunk.mk "c2" "t2" 1 0] "1011" 2022 "May" "P1"
      ∈ groupResults []
        [EnrichedChunk.mk "c1" 0 "t1" "f" "QP" "path" "1011" 2022 "May" "P1",
          EnrichedChunk.mk "c2" 1 "t2" "f" "QP" "path" "1011" 2022 "May" "P1",
          EnrichedChunk.mk "c3" 2 "t3" "f" "QP" "path" "1011" 2022 "May" "P1"] ∧
      (GroupedResult.mk "f" "QP" "path"
        [RagChunk.mk "c1" "t1" 0 0, RagChunk.mk "c2" "t2" 1 0]
        "1011" 2022 "May" "P1").chunks.length ≤ MAX_CHUNKS_PER_FILE := by
  have hmem : GroupedResult.mk "f" "QP" "path"
      [RagChunk.mk "c1" "t1" 0 0, RagChunk.mk "c2" "t2" 1 0] "1011" 2022 "May" "P1"
      ∈ groupResults []
        [EnrichedChunk.mk "c1" 0 "t1" "f" "QP" "path" "1011" 2022 "May" "P1",
          EnrichedChunk.mk "c2" 1 "t2" "f" "QP" "path" "1011" 2022 "May" "P1",
          EnrichedChunk.mk "c3" 2 "t3" "f" "QP" "path" "1011" 2022 "May" "P1"] := by
    have h : groupResults []
        [EnrichedChunk.mk "c1" 0 "t1" "f" "QP" "path" "1011" 2022 "May" "P1",
          EnrichedChunk.mk "c2" 1 "t2" "f" "QP" "path" "1011" 2022 "May" "P1",
          EnrichedChunk.mk "c3" 2 "t3" "f" "QP" "path" "1011" 2022 "May" "P1"] =
        [GroupedResult.mk "f" "QP" "path"
          [RagChunk.mk "c1" "t1" 0 0, RagChunk.mk "c2" "t2" 1 0]
          "1011" 2022 "May" "P1"] := rfl
    rw [h]
    exact List.mem_singleton_self _
  exact ⟨hmem, c7_group_cap _ _ _ hmem⟩

/-! ### Confidence and coverage of generateExamAnswer -/

/-- A ragRetrieval result as generateExamAnswer consumes it. -/
structure RagRetrievalResult where
  success : Bool
  groupedResults : List GroupedResult
  rawSimilarityScores : List ℚ
deriving Repr

/-- The model context built by generateExamAnswer: all retained chunk texts across
all groups, joined with blank lines. -/
def contextChunks (r : RagRetrievalResult) : String :=
  String.intercalate "\n\n"
    ((r.groupedResults.map (fun g => g.chunks.map (fun c => c.content))).flatten)

/-- The confidence computation of generateExamAnswer:
`Math.min(1, Math.max(0.1, avgSimilarity))`, boosted by 1.2 and re-clamped to 1
when three or more groups contributed; the mean defaults to 0.3 when no scores
exist. -/
def confidenceScore (scores : List ℚ) (groupCount : Nat) : ℚ :=
  if 3 ≤ groupCount then
    min 1
      (min 1 (max (1 / 10)
          (if 0 < scores.length then scores.sum / (scores.length : ℚ) else 3 / 10)) *
        (12 / 10))
  else
    min 1 (max (1 / 10)
      (if 0 < scores.length then scores.sum / (scores.length : ℚ) else 3 / 10))

/-- `Math.min(100, (groupCount / TOP_K) * 100)`. -/
def coveragePercentage (groupCount : Nat) : ℚ :=
  min 100 (((groupCount : ℚ) / (TOP_K : ℚ)) * 100)

/-- The scores of the ExamAnswer generateExamAnswer returns: `none` on the early
exits (failed retrieval, no groups, empty trimmed context), otherwise the
confidence and coverage.  The language-model call does not enter either score, so
it is not modelled here. -/
def generateExamAnswerScores (r : RagRetrievalResult) : Option (ℚ × ℚ) :=
  if r.success = true ∧ r.groupedResults ≠ [] ∧ trimChars (contextChunks r).data ≠ [] then
    some (confidenceScore r.rawSimilarityScores r.groupedResults.length,
      coveragePercentage r.groupedResults.length)
  else none

/-- The confidence formula as claim C6 states it: the mean of the raw similarity
scores (0.3 when no scores exist) clamped to [0.1, 1], then multiplied by 1.2 and
re-clamped to 1 when three or more groups contributed. -/
def specConfidence (scores : List ℚ) (groupCount : Nat) : ℚ :=
  if 3 ≤ groupCount then
    min
      (max (min (if scores = [] then 3 / 10 else scores.sum / (scores.length : ℚ)) 1)
          (1 / 10) *
        (12 / 10)) 1
  else
    max (min (if scores = [] then 3 / 10 else scores.sum / (scores.length : ℚ)) 1)
      (1 / 10)

theorem clamp_comm (m : ℚ) : min 1 (max (1 / 10) m) = max (min m 1) (1 / 10) := by
  rcases le_total m (1 / 10) with h | h <;> rcases le_total m 1 with h1 | h1 <;>
    simp [min_def, max_def] <;> split_ifs <;> linarith

/-- The code's clamp agrees with the claim's clamp. -/
theorem confidence_eq_spec (scores : List ℚ) (gc : Nat) :
    confidenceScore scores gc = specConfidence scores gc := by
  unfold confidenceScore specConfidence
  have hm : (if 0 < scores.length then scores.sum / (scores.length : ℚ) else 3 / 10)
      = (if scores = [] then 3 / 10 else scores.sum / (scores.length : ℚ)) := by
    rcases scores with _ | ⟨x, xs⟩ <;> simp
  rw [hm, clamp_comm, min_comm 1]

/-- C6: whenever generateExamAnswer returns an answer, its confidenceScore is the
claim's clamped-mean formula and its coveragePercentage is
`min(100, 100 * groupCount / 16)`. -/
theorem c6_scores (r : RagRetrievalResult) (c v : ℚ)
    (h : generateExamAnswerScores r = some (c, v)) :
    c = specConfidence r.rawSimilarityScores r.groupedResults.length ∧
      v = min 100 (100 * (r.groupedResults.length : ℚ) / 16) := by
  unfold generateExamAnswerScores at h
  split at h
  · injection h with h
    rw [Prod.mk.injEq] at h
    obtain ⟨h1, h2⟩ := h
    refine ⟨h1 ▸ confidence_eq_spec _ _, h2 ▸ ?_⟩
    unfold coveragePercentage TOP_K
    congr 1
    push_cast
    ring
  · cases h

/-- The spec's end-to-end example: three retrieved groups each of similarity 0.8
(one retained chunk apiece). -/
def exRetrieval : RagRetrievalResult :=
  { success := true,
    groupedResults :=
      [GroupedResult.mk "f1" "QP" "p1" [RagChunk.mk "c1" "osmosis a" 0 (4 / 5)]
          "1002" 2022 "May" "P1",
        GroupedResult.mk "f2" "QP" "p2" [RagChunk.mk "c2" "osmosis b" 1 (4 / 5)]
          "1002" 2022 "May" "P1",
        GroupedResult.mk "f3" "MS" "p3" [RagChunk.mk "c3" "osmosis c" 2 (4 / 5)]
          "1002" 2022 "May" "P1"],
    rawSimilarityScores := [4 / 5, 4 / 5, 4 / 5] }

/-- Witness for C6: three groups each of similarity 0.8 yield
confidence_score 0.96 and coverage_percentage 18.75. -/
theorem c6_witness :
    generateExamAnswerScores exRetrieval = some (24 / 25, 75 / 4) ∧
      (24 / 25 : ℚ) = specConfidence exRetrieval.rawSimilarityScores
          exRetrieval.groupedResults.length ∧
      (75 / 4 : ℚ) = min 100 (100 * (exRetrieval.groupedResults.length : ℚ) / 16) := by
  have hgen : generateExamAnswerScores exRetrieval = some (24 / 25, 75 / 4) := by
    rw [generateExamAnswerScores,
      if_pos (⟨rfl, by simp [exRetrieval], by decide⟩ :
        exRetrieval.success = true ∧ exRetrieval.groupedResults ≠ [] ∧
          trimChars (contextChunks exRetrieval).data ≠ [])]
    show some (confidenceScore [4 / 5, 4 / 5, 4 / 5] 3, coveragePercentage 3) = _
    norm_num [confidenceScore, coveragePercentage, TOP_K, min_def, max_def]
  exact ⟨hgen, (c6_scores exRetrieval _ _ hgen).1, (c6_scores exRetrieval _ _ hgen).2⟩

/-! ### Marking-point normalization of generateExamAnswer -/

/-- A parsed marking-point entry: a bare JSON string, or an object carrying point
and marks fields (possibly empty or zero). -/
inductive MPItem
  | str (s : String)
  | obj (point : String) (marks : Int)
deriving DecidableEq, Repr

/-- One step of the `parsed.marking_points.map` in generateExamAnswer.  The guard
`item && item.point && item.marks` is JS truthiness, so an empty point string or
zero marks falls through to the `{point: String(item), marks: 1}` branch, where
`String(item)` prints "[object Object]". -/
def normalizeItem : MPItem → String × Int
  | .str s => (s, 1)
  | .obj p m => if p ≠ "" ∧ m ≠ 0 then (p, max 1 m) else ("[object Object]", 1)

/-- The whole normalization: map each entry when the incoming list is nonempty,
else substitute the single generic point. -/
def normalizeMarkingPoints (items : List MPItem) : List (String × Int) :=
  if 0 < items.length then items.map normalizeItem
  else [("Key concept from sources", 1)]

/-- C9: the claim says every object carrying point and marks maps to
`{point, max(1, marks)}`.  Counterexample: marks = 0 is falsy, so
`{point: "x", marks: 0}` falls to the stringified branch instead of
`{point: "x", marks: max(1, 0) = 1}`. -/
theorem c9_counterexample :
    normalizeMarkingPoints [MPItem.obj "x" 0] = [("[object Object]", 1)] ∧
      normalizeMarkingPoints [MPItem.obj "x" 0] ≠ [("x", 1)] := by
  constructor <;> decide

/-- C9 amended: a bare string s maps to {point: s, marks: 1}; an object whose
point and marks are both truthy (nonempty point, nonzero marks) maps to
{point, max(1, marks)}; an empty incoming list is replaced by exactly one generic
marking point; a nonempty list is mapped entry by entry. -/
theorem c9_amended (s p : String) (m : Int) (items : List MPItem) :
    normalizeItem (MPItem.str s) = (s, 1) ∧
      (p ≠ "" → m ≠ 0 → normalizeItem (MPItem.obj p m) = (p, max 1 m)) ∧
      normalizeMarkingPoints [] = [("Key concept from sources", 1)] ∧
      (items ≠ [] → normalizeMarkingPoints items = items.map normalizeItem) := by
  refine ⟨rfl, fun hp hm => ?_, rfl, fun hi => ?_⟩
  · simp [normalizeItem, hp, hm]
  · have hl : 0 < items.length := List.length_pos.mpr hi
    simp [normalizeMarkingPoints, hl]

/-- Witness for the amended C9 at concrete entries. -/
theorem c9_witness :
    ("x" : String) ≠ "" ∧ (5 : Int) ≠ 0 ∧ ([MPItem.str "a"] : List MPItem) ≠ [] ∧
      normalizeItem (MPItem.obj "x" 5) = ("x", max 1 5) ∧
      normalizeMarkingPoints [MPItem.str "a"] = [MPItem.str "a"].map normalizeItem :=
  ⟨by decide, by decide, by decide,
    (c9_amended "a" "x" 5 [MPItem.str "a"]).2.1 (by decide) (by decide),
    (c9_amended "a" "x" 5 [MPItem.str "a"]).2.2.2 (by decide)⟩

end Rag

end OA
